import Mathlib

set_option maxRecDepth 4000

/-!
Verification of the `universal_api` repository (Go): a shallow embedding of
the format-detection, OpenAPI/Swagger normalization, HTML heuristic
extraction, and per-domain rate limiting code, together with theorems
settling the specification claims.

Strings are modelled as Lean `String` values, with all operations
re-implemented over the underlying character list so that the kernel can
evaluate them (`String` is a wrapper around `List Char`).  Go's `len` and
byte indexing coincide with character counts on the ASCII inputs used
throughout; this is noted where it matters.
-/

/-! ## Character-list string operations (mirroring Go's `strings` package) -/

/-- `isPrefixOfL pat l` : `pat` is a prefix of `l` (Boolean, kernel-reducible). -/
def isPrefixOfL : List Char → List Char → Bool
  | [], _ => true
  | _ :: _, [] => false
  | a :: as, b :: bs => a = b && isPrefixOfL as bs

/-- Substring containment on character lists. -/
def containsL (hay pat : List Char) : Bool :=
  match hay with
  | [] => isPrefixOfL pat []
  | _ :: t => isPrefixOfL pat hay || containsL t pat

/-- Go `strings.Contains`. -/
def goContains (s sub : String) : Bool := containsL s.data sub.data

/-- Go `strings.HasPrefix`. -/
def goHasPrefix (s pre : String) : Bool := isPrefixOfL pre.data s.data

/-- Go `strings.HasSuffix`. -/
def goHasSuffix (s suf : String) : Bool := isPrefixOfL suf.data.reverse s.data.reverse

/-- Go `strings.TrimSpace` (leading and trailing whitespace removed). -/
def goTrimSpace (s : String) : String :=
  ⟨((s.data.dropWhile Char.isWhitespace).reverse.dropWhile Char.isWhitespace).reverse⟩

/-- Go `strings.TrimPrefix`. -/
def goTrimPrefix (s pre : String) : String :=
  if goHasPrefix s pre then ⟨s.data.drop pre.data.length⟩ else s

/-- Go `strings.ToUpper` (ASCII behaviour suffices for the HTTP-verb inputs). -/
def goToUpper (s : String) : String := ⟨s.data.map Char.toUpper⟩

/-- Go `strings.ToLower`. -/
def goToLower (s : String) : String := ⟨s.data.map Char.toLower⟩

/-- Go `strings.Split(s, "\n")` — the only separator the sources use. -/
def goSplitLines (s : String) : List String :=
  (s.data.splitOnP (· = '\n')).map fun cs => ⟨cs⟩

/-- Go `strings.Fields`: whitespace-separated fields, empty fields dropped. -/
def goFields (s : String) : List String :=
  ((s.data.splitOnP Char.isWhitespace).filter (· ≠ [])).map fun cs => ⟨cs⟩

/-- Index of the first occurrence of character `c` in `s`, or `-1`
(Go `strings.Index` with a one-character pattern, as used on `"/"`). -/
def goIndexChar (s : String) (c : Char) : Int :=
  match s.data.findIdx? (· = c) with
  | some i => (i : Int)
  | none => -1

/-- Characters of `s` from position `i` on (Go slicing `s[i:]`, ASCII inputs). -/
def goDropChars (s : String) (i : Nat) : String := ⟨s.data.drop i⟩

/-- First `n` characters of `s` (Go slicing `s[:n]`, ASCII inputs). -/
def goTakeChars (s : String) (n : Nat) : String := ⟨s.data.take n⟩

/-- Character count of `s` (Go `len` on the ASCII strings involved). -/
def goLen (s : String) : Nat := s.data.length

/-- Decimal digits (fuel-indexed so that the kernel can evaluate it). -/
def natDigitsAux : Nat → Nat → List Char
  | 0, _ => []
  | f + 1, n =>
    if n < 10 then [Char.ofNat (48 + n)]
    else natDigitsAux f (n / 10) ++ [Char.ofNat (48 + n % 10)]

/-- Decimal digits of a natural number, most significant first. -/
def natDigits (n : Nat) : List Char := natDigitsAux (n + 1) n

/-- Decimal rendering of an integer (Go `fmt.Sprintf("%d", _)`). -/
def intToStr (n : Int) : String :=
  if n < 0 then ⟨'-' :: natDigits n.natAbs⟩ else ⟨natDigits n.natAbs⟩

/-- Numeric value of a list of decimal digit characters. -/
def digitsVal (ds : List Char) : Int :=
  ds.foldl (fun acc c => acc * 10 + (c.toNat - 48 : Nat)) 0

/-- `fmt.Sscanf(s, "%d", &code)` with `code` initialised to 0: skip leading
whitespace, accept an optional sign, then scan the maximal run of leading
decimal digits.  If no digit is found the scan fails and the variable keeps
its zero value; otherwise the scanned value is assigned (trailing
non-digit characters are simply left unconsumed).  Mathematical integers
stand in for Go's 64-bit `int`; the status-code keys involved are small. -/
def sscanfD (s : String) : Int :=
  let cs := s.data.dropWhile Char.isWhitespace
  let (neg, body) : Bool × List Char :=
    match cs with
    | '-' :: rest => (true, rest)
    | '+' :: rest => (false, rest)
    | _ => (false, cs)
  let ds := body.takeWhile Char.isDigit
  if ds = [] then 0
  else if neg then -(digitsVal ds) else digitsVal ds

/-! ## Format detection (`internal/scraper/scraper.go`)

`scrapeSwaggerDoc`, `scrapeGenericRESTDoc` and `scrapeGenericDoc` each pick
a parser from the response content type and, in two of the three paths,
from content sniffing.  The selection logic is side-effect free; it is
embedded here as pure functions from `(contentType, content)` to the
chosen strategy. -/

inductive ParserKind where
  | json
  | yaml
  | html
  deriving Repr, DecidableEq

/-- `isJSON` (scraper.go): trimmed content bounded by braces or brackets. -/
def isJSON (content : String) : Bool :=
  let trimmed := goTrimSpace content
  (goHasPrefix trimmed "\x7b" && goHasSuffix trimmed "\x7d") ||
    (goHasPrefix trimmed "[" && goHasSuffix trimmed "]")

/-- `isYAML` (scraper.go): not JSON-shaped, and some line of the trimmed
content contains a `:` while containing neither `{:` nor `":`. -/
def isYAML (content : String) : Bool :=
  if isJSON content then false
  else
    (goSplitLines (goTrimSpace content)).any fun line =>
      goContains line ":" && !goContains line "\x7b:" && !goContains line "\":"

/-- Parser selection of `scrapeSwaggerDoc` (scraper.go lines 62–78). -/
def swaggerSelect (contentType content : String) : ParserKind :=
  if goContains contentType "json" then .json
  else if goContains contentType "yaml" || goContains contentType "yml" then .yaml
  else if isJSON content then .json
  else if isYAML content then .yaml
  else .json

/-- Parser selection of `scrapeGenericRESTDoc` (scraper.go lines 117–127). -/
def genericRESTSelect (contentType : String) : ParserKind :=
  if goContains contentType "html" then .html
  else if goContains contentType "json" then .json
  else if goContains contentType "yaml" || goContains contentType "yml" then .yaml
  else .html

/-- Parser selection of `scrapeGenericDoc` (scraper.go lines 166–183). -/
def genericSelect (contentType content : String) : ParserKind :=
  if goContains contentType "html" then .html
  else if goContains contentType "json" then .json
  else if goContains contentType "yaml" || goContains contentType "yml" then .yaml
  else if isJSON content then .json
  else if isYAML content then .yaml
  else .html

example : swaggerSelect "text/plain" "hello world" = .json := by decide
example : genericSelect "text/plain" "hello world" = .html := by decide
example : sscanfD "2XX" = 2 := by decide
example : sscanfD "abc" = 0 := by decide
example : sscanfD "-12x" = -12 := by decide
example : intToStr 1230 = "1230" := by decide

/-! ## Canonical data model (`internal/models/api_doc.go`)

`time.Time` values are modelled as integers (Unix instants); Go zero
values become `0` / `""` / `[]`. -/

namespace models

/-- `models.Parameter`.  The Go field `In` is rendered `loc` (`in` is a
Lean keyword). -/
structure Parameter where
  name : String
  loc : String
  required : Bool
  type : String
  description : String
  deriving Repr, DecidableEq

/-- `models.Response`. -/
structure Response where
  statusCode : Int
  description : String
  schema : String
  deriving Repr, DecidableEq

/-- `models.Endpoint`. -/
structure Endpoint where
  path : String
  method : String
  summary : String
  description : String
  parameters : List Parameter
  responses : List Response
  deriving Repr, DecidableEq

/-- `models.APIDoc`. -/
structure APIDoc where
  id : String
  url : String
  title : String
  description : String
  version : String
  endpoints : List Endpoint
  createdAt : Int
  updatedAt : Int
  deriving Repr, DecidableEq

end models

/-! ## Per-domain rate limiter (`internal/ui/rate_limiter.go`)

The mutable map `requestsPerDomain : map[string][]time.Time` becomes a
total function with default `[]` (reading a missing Go map key yields the
nil slice).  `time.Now()` becomes an explicit `now : Int` argument, and
`url.Parse` an explicit `parseURL : String → Option String` argument
returning the host on success (`none` models a parse error).  The mutex
disappears: each `Allow` call is one atomic step of the state machine. -/

/-- `RateLimiter.cleanupOldRequests`: drop the leading run of request
times that are not strictly after `cutoff` (the Go loop finds the first
index whose time is `After(cutoff)` and reslices from there). -/
def cleanupOldRequests (requests : List Int) (cutoff : Int) : List Int :=
  requests.dropWhile (fun t => !(decide (cutoff < t)))

/-- Point update of the per-domain map (a Go map assignment). -/
def updateMap (st : String → List Int) (dom : String) (l : List Int) :
    String → List Int :=
  fun d => if d = dom then l else st d

theorem updateMap_same (st : String → List Int) (dom : String) (l : List Int) :
    updateMap st dom l dom = l := if_pos rfl

theorem updateMap_of_ne (st : String → List Int) (dom : String) (l : List Int)
    {d : String} (h : d ≠ dom) : updateMap st dom l d = st d := if_neg h

/-- One `RateLimiter.Allow` call: returns the verdict and the updated
per-domain request map.  `rps` is `requestsPerSecond`, `win` is
`windowSeconds` (Go multiplies it by `time.Second`; our unit of time is
one second). -/
def rateLimiterAllow (parseURL : String → Option String) (rps win : Nat)
    (st : String → List Int) (urlStr : String) (now : Int) :
    Bool × (String → List Int) :=
  match parseURL urlStr with
  | none => (true, st)
  | some domain =>
    let cleaned := cleanupOldRequests (st domain) (now - win)
    if rps ≤ cleaned.length then
      (false, updateMap st domain cleaned)
    else
      (true, updateMap st domain (cleaned ++ [now]))

/-- Run a sequence of `Allow` calls `(urlStr, now)` from a given map state,
recording each admitted request as `(domain, now)`; requests whose URL
fails to parse are allowed but recorded against no domain. -/
def runRL (parseURL : String → Option String) (rps win : Nat) :
    (String → List Int) → List (String × Int) → List (String × Int) →
    ((String → List Int) × List (String × Int))
  | st, adm, [] => (st, adm)
  | st, adm, (u, now) :: rest =>
    let r := rateLimiterAllow parseURL rps win st u now
    let adm' :=
      if r.1 then
        match parseURL u with
        | some d => adm ++ [(d, now)]
        | none => adm
      else adm
    runRL parseURL rps win r.2 adm' rest

/-- Admitted requests for domain `d` with time strictly above `c`. -/
def admittedAbove (adm : List (String × Int)) (d : String) (c : Int) : Nat :=
  adm.countP fun p => p.1 = d && decide (c < p.2)

/-- Admitted requests for domain `d` inside the half-open window
`(s, s + win]`. -/
def admittedInWindow (adm : List (String × Int)) (d : String) (s : Int) (win : Nat) : Nat :=
  adm.countP fun p => p.1 = d && decide (s < p.2) && decide (p.2 ≤ s + win)

/-- On a nondecreasing request list, the cleanup reslice is exactly the
filter keeping the times strictly after the cutoff. -/
theorem cleanupOldRequests_sorted_eq_filter (c : Int) :
    ∀ l : List Int, l.Pairwise (· ≤ ·) →
      cleanupOldRequests l c = l.filter (fun t => decide (c < t)) := by
  intro l hl
  induction l with
  | nil => rfl
  | cons a tl ih =>
    rcases List.pairwise_cons.mp hl with ⟨ha, htl⟩
    by_cases hc : c < a
    · have hrest : tl.filter (fun t => decide (c < t)) = tl :=
        List.filter_eq_self.mpr fun x hx => by
          simpa using lt_of_lt_of_le hc (ha x hx)
      simp [cleanupOldRequests, List.dropWhile, List.filter, hc, hrest]
    · simpa [cleanupOldRequests, List.dropWhile, List.filter, hc] using ih htl

/-- Invariant carried through a run of the rate limiter: `tlo` is an upper
bound for all times seen so far (and a lower bound for times to come). -/
structure RLInv (st : String → List Int) (adm : List (String × Int))
    (rps win : Nat) (tlo : Int) : Prop where
  sorted : ∀ d, (st d).Pairwise (· ≤ ·)
  bounded : ∀ d, ∀ x ∈ st d, x ≤ tlo
  admBounded : ∀ p ∈ adm, p.2 ≤ tlo
  counted : ∀ d c, tlo - win ≤ c →
    admittedAbove adm d c ≤ (st d).countP (fun x => decide (c < x))
  windowBound : ∀ d s, admittedInWindow adm d s win ≤ rps

/-- The invariant holds of the freshly constructed rate limiter. -/
theorem RLInv.init (rps win : Nat) (tlo : Int) :
    RLInv (fun _ => []) [] rps win tlo where
  sorted _ := List.Pairwise.nil
  bounded _ x hx := absurd hx (List.not_mem_nil x)
  admBounded p hp := absurd hp (List.not_mem_nil p)
  counted _ _ _ := Nat.le_refl 0
  windowBound _ _ := Nat.zero_le rps

/-- One `Allow` call preserves the invariant, re-anchored at the call's
time `now` (times are nondecreasing, so `tlo ≤ now`). -/
theorem RLInv.step (parseURL : String → Option String) (rps win : Nat)
    (st : String → List Int) (adm : List (String × Int)) (tlo now : Int)
    (hInv : RLInv st adm rps win tlo) (hle : tlo ≤ now) (u : String) :
    RLInv (rateLimiterAllow parseURL rps win st u now).2
      (if (rateLimiterAllow parseURL rps win st u now).1 then
        match parseURL u with
        | some d => adm ++ [(d, now)]
        | none => adm
       else adm) rps win now := by
  have hwin : tlo - win ≤ now - win := by omega
  cases hp : parseURL u with
  | none =>
    simp only [rateLimiterAllow, hp]
    exact
      { sorted := hInv.sorted
        bounded := fun d x hx => le_trans (hInv.bounded d x hx) hle
        admBounded := fun p hpm => le_trans (hInv.admBounded p hpm) hle
        counted := fun d c hc => hInv.counted d c (le_trans hwin hc)
        windowBound := hInv.windowBound }
  | some dom =>
    have hcl : cleanupOldRequests (st dom) (now - win) =
        (st dom).filter (fun t => decide ((now - (win : Int)) < t)) :=
      cleanupOldRequests_sorted_eq_filter _ _ (hInv.sorted dom)
    have hsortedCl : (cleanupOldRequests (st dom) (now - win)).Pairwise (· ≤ ·) := by
      rw [hcl]; exact (hInv.sorted dom).filter _
    have hmemCl : ∀ x ∈ cleanupOldRequests (st dom) (now - win), x ∈ st dom := by
      intro x hx; rw [hcl] at hx; exact List.mem_of_mem_filter hx
    have hcount : ∀ c : Int, now - win ≤ c →
        (cleanupOldRequests (st dom) (now - win)).countP (fun x => decide (c < x)) =
          (st dom).countP (fun x => decide (c < x)) := by
      intro c hc
      rw [hcl, List.countP_filter]
      refine List.countP_congr fun a _ => ?_
      by_cases h : c < a
      · simp [h, lt_of_le_of_lt hc h]
      · simp [h]
    have hlen : (cleanupOldRequests (st dom) (now - win)).length =
        (st dom).countP (fun x => decide ((now - (win : Int)) < x)) := by
      rw [hcl, List.countP_eq_length_filter]
    simp only [rateLimiterAllow, hp]
    by_cases hfull : rps ≤ (cleanupOldRequests (st dom) (now - win)).length
    · rw [if_pos hfull]
      show RLInv (updateMap st dom (cleanupOldRequests (st dom) (now - win)))
        adm rps win now
      refine
        { sorted := fun d => ?_
          bounded := fun d x hx => ?_
          admBounded := fun p hpm => le_trans (hInv.admBounded p hpm) hle
          counted := fun d c hc => ?_
          windowBound := hInv.windowBound }
      · by_cases hd : d = dom
        · subst hd
          rw [updateMap_same]
          exact hsortedCl
        · rw [updateMap_of_ne _ _ _ hd]
          exact hInv.sorted d
      · by_cases hd : d = dom
        · subst hd
          rw [updateMap_same] at hx
          exact le_trans (hInv.bounded d x (hmemCl x hx)) hle
        · rw [updateMap_of_ne _ _ _ hd] at hx
          exact le_trans (hInv.bounded d x hx) hle
      · by_cases hd : d = dom
        · subst hd
          rw [updateMap_same, hcount c hc]
          exact hInv.counted d c (le_trans hwin hc)
        · rw [updateMap_of_ne _ _ _ hd]
          exact hInv.counted d c (le_trans hwin hc)
    · rw [if_neg hfull]
      show RLInv (updateMap st dom (cleanupOldRequests (st dom) (now - win) ++ [now]))
        (adm ++ [(dom, now)]) rps win now
      have hlt : (cleanupOldRequests (st dom) (now - win)).length < rps :=
        Nat.lt_of_not_le hfull
      refine
        { sorted := fun d => ?_
          bounded := fun d x hx => ?_
          admBounded := fun p hpm => ?_
          counted := fun d c hc => ?_
          windowBound := fun d s => ?_ }
      · by_cases hd : d = dom
        · subst hd
          rw [updateMap_same, List.pairwise_append]
          refine ⟨hsortedCl, List.pairwise_singleton _ _, fun x hx y hy => ?_⟩
          rw [List.mem_singleton] at hy
          subst hy
          exact le_trans (hInv.bounded d x (hmemCl x hx)) hle
        · rw [updateMap_of_ne _ _ _ hd]
          exact hInv.sorted d
      · by_cases hd : d = dom
        · subst hd
          rw [updateMap_same] at hx
          rcases List.mem_append.mp hx with hx | hx
          · exact le_trans (hInv.bounded d x (hmemCl x hx)) hle
          · rw [List.mem_singleton] at hx
            exact le_of_eq hx
        · rw [updateMap_of_ne _ _ _ hd] at hx
          exact le_trans (hInv.bounded d x hx) hle
      · rcases List.mem_append.mp hpm with hpm | hpm
        · exact le_trans (hInv.admBounded p hpm) hle
        · rw [List.mem_singleton] at hpm
          subst hpm
          exact le_refl now
      · unfold admittedAbove
        rw [List.countP_append]
        by_cases hd : d = dom
        · subst hd
          rw [updateMap_same, List.countP_append, hcount c hc]
          have h1 := hInv.counted d c (le_trans hwin hc)
          unfold admittedAbove at h1
          have h2 : ([(d, now)].countP fun p => p.1 = d && decide (c < p.2)) =
              ([now].countP fun x => decide (c < x)) := by
            simp [List.countP_cons]
          omega
        · have h2 : ([(dom, now)].countP fun p => p.1 = d && decide (c < p.2)) = 0 := by
            simp [List.countP_cons, Ne.symm hd]
          rw [h2, updateMap_of_ne _ _ _ hd]
          have h1 := hInv.counted d c (le_trans hwin hc)
          unfold admittedAbove at h1
          omega
      · unfold admittedInWindow
        rw [List.countP_append]
        by_cases hind : dom = d ∧ s < now ∧ now ≤ s + win
        · obtain ⟨hd, hs, hsw⟩ := hind
          subst hd
          have hsingle : ([(dom, now)].countP fun p =>
              decide (p.1 = dom) && decide (s < p.2) && decide (p.2 ≤ s + win)) = 1 := by
            simp [List.countP_cons, hs, hsw]
          rw [hsingle]
          have hmono : (adm.countP fun p =>
              decide (p.1 = dom) && decide (s < p.2) && decide (p.2 ≤ s + win)) ≤
              admittedAbove adm dom (now - win) := by
            refine List.countP_mono_left fun p _ hw => ?_
            simp only [Bool.and_eq_true, decide_eq_true_eq] at hw ⊢
            exact ⟨hw.1.1, by omega⟩
          have h1 := hInv.counted dom (now - win) hwin
          unfold admittedAbove at hmono h1
          omega
        · have hzero : ([(dom, now)].countP fun p =>
              decide (p.1 = d) && decide (s < p.2) && decide (p.2 ≤ s + win)) = 0 := by
            simp only [List.countP_cons, List.countP_nil, Nat.zero_add]
            rw [if_neg]
            intro hpred
            simp only [Bool.and_eq_true, decide_eq_true_eq] at hpred
            exact hind ⟨hpred.1.1, hpred.1.2, hpred.2⟩
          have := hInv.windowBound d s
          unfold admittedInWindow at this
          omega

/-- The window bound survives an entire run of chronologically ordered
`Allow` calls. -/
theorem runRL_windowBound (parseURL : String → Option String) (rps win : Nat) :
    ∀ (trace : List (String × Int)) (st : String → List Int)
      (adm : List (String × Int)) (tlo : Int),
      trace.Pairwise (fun a b => a.2 ≤ b.2) → (∀ p ∈ trace, tlo ≤ p.2) →
      RLInv st adm rps win tlo →
      ∀ d s, admittedInWindow (runRL parseURL rps win st adm trace).2 d s win ≤ rps := by
  intro trace
  induction trace with
  | nil => intro st adm tlo _ _ hInv d s; exact hInv.windowBound d s
  | cons p rest ih =>
    intro st adm tlo hpw hlo hInv d s
    obtain ⟨u, now⟩ := p
    rcases List.pairwise_cons.mp hpw with ⟨hhead, hrest⟩
    have hstep := RLInv.step parseURL rps win st adm tlo now hInv
      (hlo (u, now) (List.mem_cons_self _ _)) u
    exact ih _ _ now hrest (fun q hq => hhead q hq) hstep d s

/-- C9: starting from a fresh rate limiter and calling `Allow` with
nondecreasing clock readings, (1) for every domain the admitted requests
inside any half-open window `(s, s + windowSeconds]` never exceed
`requestsPerSecond`; (2) a URL string that fails to parse is always
allowed and leaves the per-domain state untouched; and (3) `Allow`
returns `false` whenever the domain already has `requestsPerSecond`
requests inside the current window. -/
theorem rateLimiter_window_bound (parseURL : String → Option String)
    (rps win : Nat) (trace : List (String × Int))
    (hchron : trace.Pairwise (fun a b => a.2 ≤ b.2)) :
    (∀ d s, admittedInWindow
        (runRL parseURL rps win (fun _ => []) [] trace).2 d s win ≤ rps)
    ∧ (∀ (st : String → List Int) (u : String) (now : Int), parseURL u = none →
        rateLimiterAllow parseURL rps win st u now = (true, st))
    ∧ (∀ (st : String → List Int) (u domain : String) (now : Int),
        parseURL u = some domain →
        rps ≤ (cleanupOldRequests (st domain) (now - win)).length →
        (rateLimiterAllow parseURL rps win st u now).1 = false) := by
  refine ⟨?_, ?_, ?_⟩
  · intro d s
    cases trace with
    | nil => exact Nat.zero_le rps
    | cons p rest =>
      rcases List.pairwise_cons.mp hchron with ⟨hhead, _⟩
      refine runRL_windowBound parseURL rps win (p :: rest) _ _ p.2 hchron ?_
        (RLInv.init rps win p.2) d s
      intro q hq
      rcases List.mem_cons.mp hq with hq | hq
      · exact le_of_eq (congrArg Prod.snd hq.symm)
      · exact hhead q hq
  · intro st u now h
    simp [rateLimiterAllow, h]
  · intro st u domain now h hfull
    simp [rateLimiterAllow, h, hfull]

/-- C9 witness: a concrete chronological trace through the limiter with
`requestsPerSecond = 1`, `windowSeconds = 5`. -/
theorem rateLimiter_window_bound_witness :
    admittedInWindow
      (runRL (fun s => if s = ":" then none else some s) 1 5
        (fun _ => []) [] [("a", (0 : Int)), ("a", 3), ("a", 6)]).2 "a" 0 5 ≤ 1 :=
  (rateLimiter_window_bound (fun s => if s = ":" then none else some s) 1 5
    [("a", (0 : Int)), ("a", 3), ("a", 6)] (by decide)).1 "a" 0

/-! ## JSON values and the OpenAPI/Swagger normalizer (`pkg/parser/parser.go`)

A JSON document is modelled as a tree; any `Json` value stands for a
syntactically valid JSON text (byte-level syntax errors are the inputs
with no tree at all).  Objects are association lists in source order:
Go's `encoding/json` processes the keys of an object in input order,
later duplicates overwriting earlier ones.  The deterministic parse
functions below fix the (in Go unspecified) map iteration order of
`Paths`, `Operations()` and response maps to insertion/construction
order; the schedule-parameterized versions further down model the
actual randomized iteration and the map's key collapsing, and the
ordering-sensitive claim is settled against those.  Numbers are
modelled as integers — no claim depends on fractional values. -/

inductive Json where
  | null
  | bool (b : Bool)
  | num (n : Int)
  | str (s : String)
  | arr (elems : List Json)
  | obj (fields : List (String × Json))

instance {ε α : Type} [DecidableEq ε] [DecidableEq α] : DecidableEq (Except ε α) := fun a b =>
  match a, b with
  | .ok x, .ok y =>
    if h : x = y then .isTrue (by rw [h]) else .isFalse (by intro hc; cases hc; exact h rfl)
  | .error x, .error y =>
    if h : x = y then .isTrue (by rw [h]) else .isFalse (by intro hc; cases hc; exact h rfl)
  | .ok _, .error _ => .isFalse (by intro hc; cases hc)
  | .error _, .ok _ => .isFalse (by intro hc; cases hc)

/-- `parser.Schema`. -/
structure Schema where
  type : String
  deriving Repr, DecidableEq

/-- `parser.Parameter` (the OpenAPI-side one; Go field `In` is `loc`). -/
structure Parameter where
  name : String
  loc : String
  description : String
  required : Bool
  schema : Option Schema
  type : String
  deriving Repr, DecidableEq

/-- `parser.Operation`.  The `responses` field is Go's
`map[string]interface{}`: values stay raw `Json`. -/
structure Operation where
  summary : String
  description : String
  operationID : String
  parameters : List Parameter
  responses : List (String × Json)

/-- `parser.PathItem`. -/
structure PathItem where
  get : Option Operation
  post : Option Operation
  put : Option Operation
  delete : Option Operation
  options : Option Operation
  head : Option Operation
  patch : Option Operation

/-- `parser.OpenAPIInfo`. -/
structure OpenAPIInfo where
  title : String
  description : String
  version : String
  deriving Repr, DecidableEq

/-- `parser.OpenAPIDoc`.  `components` and `definitions` carry no data
used by `Parse`; decoding still type-checks them as Go's unmarshaller
does. -/
structure OpenAPIDoc where
  openapi : String
  swagger : String
  info : OpenAPIInfo
  paths : List (String × PathItem)

/-- Go zero value of `OpenAPIInfo`. -/
def OpenAPIInfo.zero : OpenAPIInfo := { title := "", description := "", version := "" }

/-- Go zero value of `Parameter`. -/
def Parameter.zero : Parameter :=
  { name := "", loc := "", description := "", required := false, schema := none, type := "" }

/-- Go zero value of `Operation`. -/
def Operation.zero : Operation :=
  { summary := "", description := "", operationID := "", parameters := [], responses := [] }

/-- Go zero value of `PathItem`. -/
def PathItem.zero : PathItem :=
  { get := none, post := none, put := none, delete := none, options := none,
    head := none, patch := none }

/-- Go zero value of `OpenAPIDoc`. -/
def OpenAPIDoc.zero : OpenAPIDoc :=
  { openapi := "", swagger := "", info := OpenAPIInfo.zero, paths := [] }

/-! Decoding a `Json` tree into the `OpenAPIDoc` Go structures, mirroring
`encoding/json.Unmarshal`: JSON `null` leaves the target at its zero
value, a type mismatch is an error, unknown object keys are ignored, and
struct-field key matching is case-insensitive. -/

/-- Unmarshal into a Go `string` field. -/
def decodeString : Json → Except String String
  | .null => .ok ""
  | .str s => .ok s
  | _ => .error "cannot unmarshal into string"

/-- Unmarshal into a Go `bool` field. -/
def decodeBool : Json → Except String Bool
  | .null => .ok false
  | .bool b => .ok b
  | _ => .error "cannot unmarshal into bool"

/-- Unmarshal into `OpenAPIInfo`. -/
def decodeInfo : Json → Except String OpenAPIInfo
  | .null => .ok OpenAPIInfo.zero
  | .obj fs =>
    fs.foldlM
      (fun info kv => do
        let k := goToLower kv.1
        if k = "title" then
          let s ← decodeString kv.2
          pure { info with title := s }
        else if k = "description" then
          let s ← decodeString kv.2
          pure { info with description := s }
        else if k = "version" then
          let s ← decodeString kv.2
          pure { info with version := s }
        else pure info)
      OpenAPIInfo.zero
  | _ => .error "cannot unmarshal into OpenAPIInfo"

/-- Unmarshal into `*Schema`. -/
def decodeSchemaPtr : Json → Except String (Option Schema)
  | .null => .ok none
  | .obj fs => do
    let sch ← fs.foldlM
      (fun (sch : Schema) kv => do
        if goToLower kv.1 = "type" then
          let s ← decodeString kv.2
          pure { sch with type := s }
        else pure sch)
      { type := "" }
    pure (some sch)
  | _ => .error "cannot unmarshal into Schema"

/-- Unmarshal into one `Parameter`. -/
def decodeParameter : Json → Except String Parameter
  | .null => .ok Parameter.zero
  | .obj fs =>
    fs.foldlM
      (fun (p : Parameter) kv => do
        let k := goToLower kv.1
        if k = "name" then
          let s ← decodeString kv.2
          pure { p with name := s }
        else if k = "in" then
          let s ← decodeString kv.2
          pure { p with loc := s }
        else if k = "description" then
          let s ← decodeString kv.2
          pure { p with description := s }
        else if k = "required" then
          let b ← decodeBool kv.2
          pure { p with required := b }
        else if k = "schema" then
          let sch ← decodeSchemaPtr kv.2
          pure { p with schema := sch }
        else if k = "type" then
          let s ← decodeString kv.2
          pure { p with type := s }
        else pure p)
      Parameter.zero
  | _ => .error "cannot unmarshal into Parameter"

/-- Unmarshal into `[]Parameter`. -/
def decodeParameters : Json → Except String (List Parameter)
  | .null => .ok []
  | .arr xs => xs.mapM decodeParameter
  | _ => .error "cannot unmarshal into []Parameter"

/-- Unmarshal into `map[string]interface{}` (responses): values are kept
as raw JSON. -/
def decodeResponses : Json → Except String (List (String × Json))
  | .null => .ok []
  | .obj fs => .ok fs
  | _ => .error "cannot unmarshal into map[string]interface"

/-- Unmarshal into `*Operation`. -/
def decodeOperationPtr : Json → Except String (Option Operation)
  | .null => .ok none
  | .obj fs => do
    let op ← fs.foldlM
      (fun (op : Operation) kv => do
        let k := goToLower kv.1
        if k = "summary" then
          let s ← decodeString kv.2
          pure { op with summary := s }
        else if k = "description" then
          let s ← decodeString kv.2
          pure { op with description := s }
        else if k = "operationid" then
          let s ← decodeString kv.2
          pure { op with operationID := s }
        else if k = "parameters" then
          let ps ← decodeParameters kv.2
          pure { op with parameters := ps }
        else if k = "responses" then
          let rs ← decodeResponses kv.2
          pure { op with responses := rs }
        else pure op)
      Operation.zero
    pure (some op)
  | _ => .error "cannot unmarshal into Operation"

/-- Unmarshal into `PathItem`. -/
def decodePathItem : Json → Except String PathItem
  | .null => .ok PathItem.zero
  | .obj fs =>
    fs.foldlM
      (fun (item : PathItem) kv => do
        let k := goToLower kv.1
        if k = "get" then
          let op ← decodeOperationPtr kv.2
          pure { item with get := op }
        else if k = "post" then
          let op ← decodeOperationPtr kv.2
          pure { item with post := op }
        else if k = "put" then
          let op ← decodeOperationPtr kv.2
          pure { item with put := op }
        else if k = "delete" then
          let op ← decodeOperationPtr kv.2
          pure { item with delete := op }
        else if k = "options" then
          let op ← decodeOperationPtr kv.2
          pure { item with options := op }
        else if k = "head" then
          let op ← decodeOperationPtr kv.2
          pure { item with head := op }
        else if k = "patch" then
          let op ← decodeOperationPtr kv.2
          pure { item with patch := op }
        else pure item)
      PathItem.zero
  | _ => .error "cannot unmarshal into PathItem"

/-- Unmarshal into `map[string]PathItem`, keeping key order. -/
def decodePaths : Json → Except String (List (String × PathItem))
  | .null => .ok []
  | .obj fs => fs.mapM fun kv => do
      let item ← decodePathItem kv.2
      pure (kv.1, item)
  | _ => .error "cannot unmarshal into map[string]PathItem"

/-- Shape check for `map[string]interface{}` fields whose content is
unused (`definitions`, `components.schemas`). -/
def checkStringMap : Json → Except String Unit
  | .null => .ok ()
  | .obj _ => .ok ()
  | _ => .error "cannot unmarshal into map[string]interface"

/-- Shape check for `*OpenAPIComponents`. -/
def checkComponents : Json → Except String Unit
  | .null => .ok ()
  | .obj fs =>
    fs.foldlM
      (fun _ kv =>
        if goToLower kv.1 = "schemas" then checkStringMap kv.2 else .ok ())
      ()
  | _ => .error "cannot unmarshal into OpenAPIComponents"

/-- Unmarshal a JSON tree into `OpenAPIDoc` (`json.Unmarshal(content,
&openAPIDoc)`). -/
def decodeOpenAPIDoc : Json → Except String OpenAPIDoc
  | .null => .ok OpenAPIDoc.zero
  | .obj fs =>
    fs.foldlM
      (fun (doc : OpenAPIDoc) kv => do
        let k := goToLower kv.1
        if k = "openapi" then
          let s ← decodeString kv.2
          pure { doc with openapi := s }
        else if k = "swagger" then
          let s ← decodeString kv.2
          pure { doc with swagger := s }
        else if k = "info" then
          let i ← decodeInfo kv.2
          pure { doc with info := i }
        else if k = "paths" then
          let ps ← decodePaths kv.2
          pure { doc with paths := ps }
        else if k = "components" then do
          checkComponents kv.2
          pure doc
        else if k = "definitions" then do
          checkStringMap kv.2
          pure doc
        else pure doc)
      OpenAPIDoc.zero
  | _ => .error "cannot unmarshal into OpenAPIDoc"

/-- `OpenAPIDoc.OpenAPI`: the version string, preferring `openapi` over
`swagger`. -/
def OpenAPIDoc.OpenAPI (doc : OpenAPIDoc) : String :=
  if doc.openapi ≠ "" then doc.openapi else doc.swagger

/-- `PathItem.Operations`: the present operations, keyed by upper-case
method.  Go builds a map by checking the seven fields in this order and
then ranges over it; the embedding fixes that enumeration order. -/
def PathItem.Operations (item : PathItem) : List (String × Operation) :=
  (match item.get with | some op => [("GET", op)] | none => []) ++
  (match item.post with | some op => [("POST", op)] | none => []) ++
  (match item.put with | some op => [("PUT", op)] | none => []) ++
  (match item.delete with | some op => [("DELETE", op)] | none => []) ++
  (match item.options with | some op => [("OPTIONS", op)] | none => []) ++
  (match item.head with | some op => [("HEAD", op)] | none => []) ++
  (match item.patch with | some op => [("PATCH", op)] | none => [])

/-- Parameter type resolution: `param.Type`, overridden by
`param.Schema.Type` when the schema is present with a non-empty type. -/
def paramTypeOf (p : Parameter) : String :=
  match p.schema with
  | some sch => if sch.type ≠ "" then sch.type else p.type
  | none => p.type

/-- Status code of one response-map key: `"default"` maps to 0, anything
else goes through `fmt.Sscanf("%d")` into a variable initialised to 0. -/
def respStatusCodeOf (k : String) : Int :=
  if k = "default" then 0 else sscanfD k

/-- Description of one response object: the `description` key of the
response map when it is a string (Go's type assertion), else empty.
Duplicate JSON keys follow map semantics: the last occurrence wins. -/
def respDescriptionOf : Json → String
  | .obj fs =>
    match (fs.filter fun kv => kv.1 = "description").getLast? with
    | some (_, .str s) => s
    | _ => ""
  | _ => ""

/-- One canonical endpoint built from an OpenAPI operation. -/
def mkEndpointJSON (path method : String) (op : Operation) : models.Endpoint :=
  { path := path
    method := method
    summary := op.summary
    description := op.description
    parameters := op.parameters.map fun p =>
      { name := p.name, loc := p.loc, required := p.required,
        type := paramTypeOf p, description := p.description }
    responses := op.responses.map fun kv =>
      { statusCode := respStatusCodeOf kv.1,
        description := respDescriptionOf kv.2,
        schema := "" } }

/-- All endpoints of a decoded document, in path-then-method enumeration
order. -/
def buildEndpoints (paths : List (String × PathItem)) : List models.Endpoint :=
  paths.flatMap fun pi => pi.2.Operations.map fun mo => mkEndpointJSON pi.1 mo.1 mo.2

/-- `JSONParser.Parse`, over an already-lexed JSON tree (a byte input
that is not syntactically valid JSON has no tree and fails before this
point).  `t` is the value of `time.Now()` (Unix seconds), which stamps
the identifier and both timestamps. -/
def JSONParserParse (j : Json) (t : Int) : Except String models.APIDoc :=
  match decodeOpenAPIDoc j with
  | .error e => .error ("failed to parse JSON as OpenAPI: " ++ e)
  | .ok doc =>
    if doc.OpenAPI = "" then
      .error "JSON does not appear to be an OpenAPI/Swagger document"
    else
      .ok
        { id := "openapi-" ++ intToStr t
          url := ""
          title := doc.info.title
          description := doc.info.description
          version := doc.info.version
          endpoints := buildEndpoints doc.paths
          createdAt := t
          updatedAt := t }

/-- `YAMLParser.Parse`: `yaml.Unmarshal` produces an in-memory tree,
`json.Marshal`/`Unmarshal` round-trips it, and the result is handed to
`JSONParser.Parse`.  On the JSON-compatible trees modelled here the
round trip is the identity, so the YAML path is the JSON path applied to
the tree the YAML text denotes (YAML syntax errors fail before this
point, byte-level, like JSON ones). -/
def YAMLParserParse (j : Json) (t : Int) : Except String models.APIDoc :=
  JSONParserParse j t

/-- The JSON test document of `parser_test.go` as a tree. -/
def jsonTestData : Json := .obj [
  ("openapi", .str "3.0.0"),
  ("info", .obj [
    ("title", .str "Test API"),
    ("description", .str "API for testing"),
    ("version", .str "1.0.0")]),
  ("paths", .obj [
    ("/users", .obj [
      ("get", .obj [
        ("summary", .str "Get all users"),
        ("description", .str "Returns a list of users"),
        ("parameters", .arr [.obj [
          ("name", .str "limit"),
          ("in", .str "query"),
          ("description", .str "Maximum number of users to return"),
          ("required", .bool false),
          ("schema", .obj [("type", .str "integer")])]]),
        ("responses", .obj [
          ("200", .obj [("description", .str "Successful operation")]),
          ("400", .obj [("description", .str "Bad request")])])]),
      ("post", .obj [
        ("summary", .str "Create a user"),
        ("description", .str "Creates a new user"),
        ("parameters", .arr [.obj [
          ("name", .str "name"),
          ("in", .str "body"),
          ("description", .str "User name"),
          ("required", .bool true),
          ("schema", .obj [("type", .str "string")])]]),
        ("responses", .obj [
          ("201", .obj [("description", .str "User created")]),
          ("400", .obj [("description", .str "Bad request")])])])])])]

example :
    ((JSONParserParse jsonTestData 7).toOption.map fun d =>
      (d.id, d.title, d.description, d.version, d.endpoints.length)) =
      some ("openapi-7", "Test API", "API for testing", "1.0.0", 2) := by decide

example :
    ((JSONParserParse jsonTestData 7).toOption.map fun d =>
      d.endpoints.map fun e =>
        (e.method, e.path, e.summary, e.parameters.length, e.responses.length)) =
      some [("GET", "/users", "Get all users", 1, 2),
            ("POST", "/users", "Create a user", 1, 2)] := by decide

example :
    ((JSONParserParse jsonTestData 7).toOption.map fun d =>
      d.endpoints.map fun e => e.responses.map fun r => (r.statusCode, r.description)) =
      some [[(200, "Successful operation"), (400, "Bad request")],
            [(201, "User created"), (400, "Bad request")]] := by decide

example :
    ((JSONParserParse jsonTestData 7).toOption.map fun d =>
      d.endpoints.map fun e => e.parameters.map fun p => (p.name, p.loc, p.type)) =
      some [[("limit", "query", "integer")], [("name", "body", "string")]] := by decide

example : (JSONParserParse (Json.str "hello") 0).toOption = none := by decide

example : (JSONParserParse (Json.obj [("info", Json.obj [("title", Json.str "x")])]) 0).toOption
    = none := by decide

/-- C3 counterexample: `{"openapi": 3}` is syntactically valid JSON whose
`openapi` field is present (and non-empty as a JSON value), yet
`JSONParser.Parse` returns an error — `json.Unmarshal` rejects the
number where the Go struct expects a string, an error source the claim's
"if and only if" omits. -/
theorem jsonParse_error_iff_counterexample :
    (JSONParserParse (Json.obj [("openapi", Json.num 3)]) 0).toOption = none := by
  decide

/-- C3 amended: the JSON path succeeds exactly when the bytes unmarshal
into the `OpenAPIDoc` structure (syntactically valid JSON of the right
shape — a wrongly-typed field such as a numeric `openapi` is also an
unmarshal error) and the decoded document has a non-empty `openapi` or
`swagger` field; it fails otherwise. -/
theorem jsonParse_error_iff (j : Json) (t : Int) :
    (∃ d, JSONParserParse j t = .ok d) ↔
      ∃ doc, decodeOpenAPIDoc j = .ok doc ∧ (doc.openapi ≠ "" ∨ doc.swagger ≠ "") := by
  unfold JSONParserParse
  cases h : decodeOpenAPIDoc j with
  | error e => simp
  | ok doc =>
    by_cases hv : doc.OpenAPI = ""
    · have : doc.openapi = "" ∧ doc.swagger = "" := by
        unfold OpenAPIDoc.OpenAPI at hv
        by_cases ho : doc.openapi = "" <;> simp [ho] at hv <;> simp_all
      simp [hv, this.1, this.2]
    · have : doc.openapi ≠ "" ∨ doc.swagger ≠ "" := by
        unfold OpenAPIDoc.OpenAPI at hv
        by_cases ho : doc.openapi = "" <;> simp [ho] at hv <;> simp_all
      simp [hv, this]

/-- A one-endpoint Swagger document whose sole response is keyed by
`key`. -/
def respDocFor (key : String) : Json := .obj [
  ("swagger", .str "2.0"),
  ("paths", .obj [
    ("/a", .obj [
      ("get", .obj [
        ("responses", .obj [(key, .obj [("description", .str "d")])])])])])]

/-- C4 counterexample: the response key `"2XX"` does not parse as a
decimal integer, yet it yields status code 2, not the claimed 0 —
`fmt.Sscanf("%d")` assigns the scanned digit prefix even though the rest
of the key is not consumed. -/
theorem respStatus_prefix_counterexample :
    ((JSONParserParse (respDocFor "2XX") 0).toOption.map fun d =>
      d.endpoints.map fun e => e.responses.map fun r => r.statusCode) =
      some [[2]] := by decide

/-- C4 amended: the literal key `"default"` yields status code 0; every
other key yields exactly what `fmt.Sscanf("%d")` scans from it — the
value of its leading (optionally signed, whitespace-skipped) digit run,
which is the full integer for purely numeric keys, the digit-prefix
value for keys such as `"2XX"`, and 0 only for keys with no leading
digits at all. -/
theorem respStatus_amended (key : String) (t : Int) :
    ((JSONParserParse (respDocFor key) t).toOption.map fun d =>
        d.endpoints.map fun e => e.responses.map fun r => r.statusCode) =
      some [[if key = "default" then 0 else sscanfD key]]
    ∧ sscanfD "2XX" = 2 ∧ sscanfD "abc" = 0 ∧ sscanfD "404" = 404 ∧
      respStatusCodeOf "default" = 0 := by
  refine ⟨rfl, by decide, by decide, by decide, by decide⟩

/-! The deterministic functions above fix Go's unspecified `range` order
over maps to insertion/construction order.  `JSONParser.Parse` actually
ranges over three maps — `openAPIDoc.Paths`, the map built by
`Operations()`, and each `operation.Responses` — whose iteration order
is randomized per call, and Go maps collapse duplicate JSON keys (last
value wins).  The schedule-parameterized versions below make that
nondeterminism explicit: a schedule is the iteration order one concrete
run happens to use, admissible when its output is always a permutation
of its input, and every real run is some admissible schedule (the maps
are keyed, so the path key — and the method under it — identifies each
map instance of a run). -/

/-- The content of a Go map built from an association list: duplicate
keys collapsed, the last value winning (as `encoding/json` decodes later
duplicates over earlier ones).  The order of this representative is
immaterial — every range order over it is admitted by a schedule. -/
def dedupKeysLast {α : Type} (l : List (String × α)) : List (String × α) :=
  l.foldl
    (fun acc kv =>
      if acc.any fun kv' => kv'.1 = kv.1 then
        acc.map fun kv' => if kv'.1 = kv.1 then (kv'.1, kv.2) else kv'
      else acc ++ [kv])
    []

/-- One canonical parameter of an OpenAPI operation parameter. -/
def paramOf (p : Parameter) : models.Parameter :=
  { name := p.name, loc := p.loc, required := p.required,
    type := paramTypeOf p, description := p.description }

/-- One canonical response of a response-map entry. -/
def respOf (kv : String × Json) : models.Response :=
  { statusCode := respStatusCodeOf kv.1,
    description := respDescriptionOf kv.2,
    schema := "" }

/-- One endpoint under an iteration schedule `σr` for its response map
(`for statusCode, responseObj := range operation.Responses`). -/
def mkEndpointJSONSched
    (σr : String → String → List (String × Json) → List (String × Json))
    (path method : String) (op : Operation) : models.Endpoint :=
  { path := path
    method := method
    summary := op.summary
    description := op.description
    parameters := op.parameters.map paramOf
    responses := (σr path method (dedupKeysLast op.responses)).map respOf }

/-- The endpoint build under iteration schedules: `σp` orders the single
range over the `Paths` map, `σo` the range over each path's built method
map (keyed by path), and `σr` the range over each operation's response
map (keyed by path and method). -/
def buildEndpointsSched
    (σp : List (String × PathItem) → List (String × PathItem))
    (σo : String → List (String × Operation) → List (String × Operation))
    (σr : String → String → List (String × Json) → List (String × Json))
    (paths : List (String × PathItem)) : List models.Endpoint :=
  (σp (dedupKeysLast paths)).flatMap fun pi =>
    (σo pi.1 pi.2.Operations).map fun mo => mkEndpointJSONSched σr pi.1 mo.1 mo.2

/-- `JSONParser.Parse` with Go's randomized map iteration made explicit:
one run of the Go function is this function at the schedules that run
happened to use. -/
def JSONParserParseSched
    (σp : List (String × PathItem) → List (String × PathItem))
    (σo : String → List (String × Operation) → List (String × Operation))
    (σr : String → String → List (String × Json) → List (String × Json))
    (j : Json) (t : Int) : Except String models.APIDoc :=
  match decodeOpenAPIDoc j with
  | .error e => .error ("failed to parse JSON as OpenAPI: " ++ e)
  | .ok doc =>
    if doc.OpenAPI = "" then
      .error "JSON does not appear to be an OpenAPI/Swagger document"
    else
      .ok
        { id := "openapi-" ++ intToStr t
          url := ""
          title := doc.info.title
          description := doc.info.description
          version := doc.info.version
          endpoints := buildEndpointsSched σp σo σr doc.paths
          createdAt := t
          updatedAt := t }

/-- `YAMLParser.Parse` with explicit schedules: the tree `yaml.Unmarshal`
produced is marshalled to JSON text — `json.Marshal` sorts map keys —
and re-read by `json.Unmarshal`, which rebuilds the maps, so the sorted
entry order is absorbed into the JSON path's own iteration schedules:
the YAML run is the JSON path on the same tree under schedules of its
own. -/
def YAMLParserParseSched
    (σp : List (String × PathItem) → List (String × PathItem))
    (σo : String → List (String × Operation) → List (String × Operation))
    (σr : String → String → List (String × Json) → List (String × Json))
    (j : Json) (t : Int) : Except String models.APIDoc :=
  JSONParserParseSched σp σo σr j t

/-- Reversal is an admissible iteration schedule: every list is a
permutation of its reverse. -/
theorem reverse_sched_admissible (l : List (String × PathItem)) :
    (List.reverse l).Perm l :=
  List.reverse_perm l

/-- Two paths, each carrying one GET operation. -/
def exTwoPaths : Json := .obj [
  ("openapi", .str "3.0.0"),
  ("paths", .obj [
    ("/a", .obj [("get", .obj [("summary", .str "A")])]),
    ("/b", .obj [("get", .obj [("summary", .str "B")])])])]

/-- C6 counterexample: the endpoint sequence is not a function of the
input document.  `List.reverse` and `id` are both admissible schedules
(`reverse_sched_admissible`); on the same two-path tree the YAML-side
run that happens to range the paths map in reversed order produces the
endpoint sequence `/b, /a`, while the JSON-side run in source order
produces `/a, /b` — the two canonical documents differ beyond
identifier and timestamps, refuting the claimed equality of endpoint
sequences. -/
theorem yaml_json_equiv_counterexample :
    ((YAMLParserParseSched List.reverse (fun _ => id) (fun _ _ => id)
        exTwoPaths 0).toOption.map fun d => d.endpoints.map fun e => e.path) =
      some ["/b", "/a"]
    ∧ ((JSONParserParseSched id (fun _ => id) (fun _ _ => id)
        exTwoPaths 0).toOption.map fun d => d.endpoints.map fun e => e.path) =
      some ["/a", "/b"]
    ∧ (["/b", "/a"] : List String) ≠ ["/a", "/b"] :=
  ⟨by decide, by decide, by decide⟩

/-- Order-insensitive view of an endpoint: the response list as a
multiset (parameters are a JSON array, so their order is determined by
the input and kept). -/
structure EndpointNorm where
  path : String
  method : String
  summary : String
  description : String
  parameters : List models.Parameter
  responses : Multiset models.Response

/-- Normalization of a produced endpoint. -/
def normEndpoint (e : models.Endpoint) : EndpointNorm :=
  { path := e.path
    method := e.method
    summary := e.summary
    description := e.description
    parameters := e.parameters
    responses := (e.responses : Multiset models.Response) }

/-- The canonical normalized endpoint of one operation. -/
def normOf (path : String) (mo : String × Operation) : EndpointNorm :=
  { path := path
    method := mo.1
    summary := mo.2.summary
    description := mo.2.description
    parameters := mo.2.parameters.map paramOf
    responses := ((dedupKeysLast mo.2.responses).map respOf : List models.Response) }

/-- Schedule-independent normalized endpoint list of a decoded document. -/
def normBuild (paths : List (String × PathItem)) : List EndpointNorm :=
  (dedupKeysLast paths).flatMap fun pi =>
    pi.2.Operations.map fun mo => normOf pi.1 mo

/-- Normalizing an endpoint erases the response schedule. -/
theorem normEndpoint_mkSched
    (σr : String → String → List (String × Json) → List (String × Json))
    (hr : ∀ p m l, (σr p m l).Perm l) (path : String) (mo : String × Operation) :
    normEndpoint (mkEndpointJSONSched σr path mo.1 mo.2) = normOf path mo := by
  unfold normEndpoint mkEndpointJSONSched normOf
  have hresp :
      (((σr path mo.1 (dedupKeysLast mo.2.responses)).map respOf : List models.Response) :
        Multiset models.Response) =
      ((dedupKeysLast mo.2.responses).map respOf : List models.Response) :=
    Multiset.coe_eq_coe.mpr ((hr path mo.1 _).map respOf)
  rw [hresp]

/-- Under any admissible schedules, the normalized endpoint list is a
permutation of the schedule-free canonical one. -/
theorem buildSched_perm_normBuild
    (σp : List (String × PathItem) → List (String × PathItem))
    (σo : String → List (String × Operation) → List (String × Operation))
    (σr : String → String → List (String × Json) → List (String × Json))
    (hp : ∀ l, (σp l).Perm l) (ho : ∀ k l, (σo k l).Perm l)
    (hr : ∀ p m l, (σr p m l).Perm l) (paths : List (String × PathItem)) :
    ((buildEndpointsSched σp σo σr paths).map normEndpoint).Perm (normBuild paths) := by
  unfold buildEndpointsSched normBuild
  rw [List.map_flatMap]
  refine List.Perm.trans (List.Perm.flatMap_left _ ?_) ((hp _).flatMap_right _)
  intro pi _
  rw [List.map_map]
  have hfn : ∀ mo ∈ σo pi.1 pi.2.Operations,
      (normEndpoint ∘ fun mo => mkEndpointJSONSched σr pi.1 mo.1 mo.2) mo =
        normOf pi.1 mo :=
    fun mo _ => normEndpoint_mkSched σr hr pi.1 mo
  rw [List.map_congr_left hfn]
  exact (ho pi.1 _).map _

/-- C6 amended: the same JSON-compatible tree read once through the YAML
path and once through the JSON path — under any admissible iteration
schedules of the two runs and any two instants — yields canonical
documents with equal titles, descriptions, versions and URLs, and
endpoint sequences equal up to reordering: as multisets of endpoints
with their response lists likewise taken as multisets (identifier and
timestamps excepted, endpoint order and per-endpoint response order not
guaranteed). -/
theorem yaml_json_perm_equiv
    (σp₁ σp₂ : List (String × PathItem) → List (String × PathItem))
    (σo₁ σo₂ : String → List (String × Operation) → List (String × Operation))
    (σr₁ σr₂ : String → String → List (String × Json) → List (String × Json))
    (hp₁ : ∀ l, (σp₁ l).Perm l) (ho₁ : ∀ k l, (σo₁ k l).Perm l)
    (hr₁ : ∀ p m l, (σr₁ p m l).Perm l)
    (hp₂ : ∀ l, (σp₂ l).Perm l) (ho₂ : ∀ k l, (σo₂ k l).Perm l)
    (hr₂ : ∀ p m l, (σr₂ p m l).Perm l)
    (j : Json) (t₁ t₂ : Int) (d₁ d₂ : models.APIDoc)
    (h₁ : YAMLParserParseSched σp₁ σo₁ σr₁ j t₁ = .ok d₁)
    (h₂ : JSONParserParseSched σp₂ σo₂ σr₂ j t₂ = .ok d₂) :
    d₁.title = d₂.title ∧ d₁.description = d₂.description ∧
    d₁.version = d₂.version ∧ d₁.url = d₂.url ∧
    (↑(d₁.endpoints.map normEndpoint) : Multiset EndpointNorm) =
      ↑(d₂.endpoints.map normEndpoint) := by
  unfold YAMLParserParseSched at h₁
  unfold JSONParserParseSched at h₁ h₂
  cases h : decodeOpenAPIDoc j with
  | error e =>
    rw [h] at h₁
    exact absurd h₁ (by simp)
  | ok doc =>
    rw [h] at h₁ h₂
    dsimp only at h₁ h₂
    by_cases hv : doc.OpenAPI = ""
    · rw [if_pos hv] at h₁
      exact absurd h₁ (by simp)
    · rw [if_neg hv] at h₁ h₂
      cases h₁
      cases h₂
      refine ⟨rfl, rfl, rfl, rfl, ?_⟩
      rw [Multiset.coe_eq_coe]
      exact (buildSched_perm_normBuild σp₁ σo₁ σr₁ hp₁ ho₁ hr₁ doc.paths).trans
        (buildSched_perm_normBuild σp₂ σo₂ σr₂ hp₂ ho₂ hr₂ doc.paths).symm

/-- Expected document for the C6 witness, YAML side (`t = 0`). -/
def yamlEquivDocA : models.APIDoc :=
  { id := "openapi-0", url := "", title := "", description := "", version := "",
    endpoints := [], createdAt := 0, updatedAt := 0 }

/-- Expected document for the C6 witness, JSON side (`t = 1`). -/
def yamlEquivDocB : models.APIDoc :=
  { id := "openapi-1", url := "", title := "", description := "", version := "",
    endpoints := [], createdAt := 1, updatedAt := 1 }

/-- C6 witness: a concrete OpenAPI tree parsed through both paths at
different instants under identity schedules. -/
theorem yaml_json_perm_equiv_witness :
    yamlEquivDocA.title = yamlEquivDocB.title ∧
    yamlEquivDocA.description = yamlEquivDocB.description ∧
    yamlEquivDocA.version = yamlEquivDocB.version ∧
    yamlEquivDocA.url = yamlEquivDocB.url ∧
    (↑(yamlEquivDocA.endpoints.map normEndpoint) : Multiset EndpointNorm) =
      ↑(yamlEquivDocB.endpoints.map normEndpoint) :=
  yaml_json_perm_equiv id id (fun _ => id) (fun _ => id) (fun _ _ => id) (fun _ _ => id)
    (fun l => List.Perm.refl l) (fun _ l => List.Perm.refl l)
    (fun _ _ l => List.Perm.refl l)
    (fun l => List.Perm.refl l) (fun _ l => List.Perm.refl l)
    (fun _ _ l => List.Perm.refl l)
    (Json.obj [("openapi", Json.str "3.0.0")]) 0 1 yamlEquivDocA yamlEquivDocB
    (by decide) (by decide)

/-- C2 counterexample: with a content-type hint matching none of
json/yaml/yml/html and content that is neither JSON-shaped nor
YAML-shaped, the Swagger scrape path (`scrapeSwaggerDoc`) falls back to
the JSON strategy, not to HTML — HTML is not the terminal fallback of
every detection path. -/
theorem detect_fallback_counterexample :
    goContains "text/plain" "json" = false ∧ goContains "text/plain" "yaml" = false ∧
    goContains "text/plain" "yml" = false ∧ goContains "text/plain" "html" = false ∧
    isJSON "hello world" = false ∧ isYAML "hello world" = false ∧
    swaggerSelect "text/plain" "hello world" = ParserKind.json := by decide

/-- C2 amended: detection never errors (each selector is a total
function into the three strategies), and when the hint matches none of
json/yaml/yml/html and the content sniffs as neither JSON nor YAML, the
generic and generic-REST scrape paths fall back to HTML while the
Swagger path (URLs containing swagger/openapi/api-docs) falls back to
the JSON strategy. -/
theorem detect_fallback_amended (contentType content : String)
    (hjson : goContains contentType "json" = false)
    (hyaml : goContains contentType "yaml" = false)
    (hyml : goContains contentType "yml" = false)
    (hhtml : goContains contentType "html" = false)
    (hcj : isJSON content = false) (hcy : isYAML content = false) :
    genericSelect contentType content = ParserKind.html ∧
    genericRESTSelect contentType = ParserKind.html ∧
    swaggerSelect contentType content = ParserKind.json := by
  unfold genericSelect genericRESTSelect swaggerSelect
  rw [hjson, hyaml, hyml, hhtml, hcj, hcy]
  exact ⟨rfl, rfl, rfl⟩

/-- C2 witness for the amended fallback statement. -/
theorem detect_fallback_amended_witness :
    genericSelect "text/plain" "hello" = ParserKind.html ∧
    genericRESTSelect "text/plain" = ParserKind.html ∧
    swaggerSelect "text/plain" "hello" = ParserKind.json :=
  detect_fallback_amended "text/plain" "hello" (by decide) (by decide) (by decide)
    (by decide) (by decide) (by decide)

/-! ## HTML heuristic extractor (`pkg/parser/parser.go`, `HTMLParser`)

`goquery.NewDocumentFromReader(strings.NewReader(...))` parses any byte
sequence into a markup tree: the x/net/html parser implements the HTML5
recovery algorithm and is total, and a `strings.Reader` never fails, so
the only error return in `HTMLParser.Parse` is dead code.  The embedding
therefore starts from the parsed tree — a forest of element/text nodes —
and `HTMLParser.Parse` becomes a total function of that tree.  goquery
selections hold element nodes in document order; `Text()` concatenates
every descendant text node. -/

inductive Html where
  | elem (tag : String) (attrs : List (String × String)) (children : List Html)
  | text (s : String)

mutual
/-- `Selection.Text()` of a single node: all text content beneath it. -/
def Html.textContent : Html → String
  | .text s => s
  | .elem _ _ cs => textContentList cs
/-- Concatenated text content of a forest. -/
def textContentList : List Html → String
  | [] => ""
  | n :: ns => n.textContent ++ textContentList ns
end

mutual
/-- Pre-order entries `(element, following siblings)` for one node. -/
def elemWS : Html → List Html → List (Html × List Html)
  | .text _, _ => []
  | e@(.elem _ _ cs), sibs => (e, sibs) :: elemsWSList cs
/-- Pre-order entries `(element, following siblings)` for a forest: the
document-order traversal that `Find(...).Each` performs, with enough
context for `Next()`/`NextUntil()`. -/
def elemsWSList : List Html → List (Html × List Html)
  | [] => []
  | n :: rest => elemWS n rest ++ elemsWSList rest
end

mutual
/-- One node's element nodes (itself included if an element), pre-order. -/
def elemDesc : Html → List Html
  | .text _ => []
  | e@(.elem _ _ cs) => e :: descList cs
/-- All element nodes of a forest in document order (`Find` from the
document root). -/
def descList : List Html → List Html
  | [] => []
  | n :: rest => elemDesc n ++ descList rest
end

/-- Proper descendants of one node (`Find` from a selection node). -/
def properDescendants : Html → List Html
  | .text _ => []
  | .elem _ _ cs => descList cs

/-- `Find` over a multi-node selection of disjoint sibling subtrees. -/
def selFind (sel : List Html) (p : Html → Bool) : List Html :=
  (sel.flatMap properDescendants).filter p

/-- Tag of an element (`""` for text nodes, which never match selectors). -/
def Html.tag : Html → String
  | .elem t _ _ => t
  | .text _ => ""

/-- First attribute value for `key` (`Selection.Attr`). -/
def Html.attr : Html → String → Option String
  | .elem _ attrs _, key => (attrs.find? fun kv => kv.1 = key).map Prod.snd
  | .text _, _ => none

/-- Element-with-tag test. -/
def tagIs (t : String) (n : Html) : Bool :=
  match n with
  | .elem tg _ _ => tg = t
  | .text _ => false

/-- Heading selector `h1, h2, h3, h4, h5, h6`. -/
def isHeading (n : Html) : Bool :=
  tagIs "h1" n || tagIs "h2" n || tagIs "h3" n || tagIs "h4" n ||
    tagIs "h5" n || tagIs "h6" n

/-- Class-attribute word membership (CSS class selector `.code`). -/
def classHasWord (n : Html) (w : String) : Bool :=
  match n.attr "class" with
  | some cls => (goFields cls).any fun f => f = w
  | none => false

/-- Selector `pre, code, .code` (= `code, .code, pre`): matches in
document order whatever the order of the alternatives. -/
def isCodeSel (n : Html) : Bool :=
  (tagIs "pre" n || tagIs "code" n || classHasWord n "code") &&
    (match n with | .elem _ _ _ => true | .text _ => false)

/-- `meta[name=description]` selector. -/
def isDescMeta (n : Html) : Bool :=
  tagIs "meta" n && (n.attr "name" == some "description")

/-- `Selection.Next()`: the first following sibling element, if any. -/
def nextElem : List Html → Option Html
  | [] => none
  | (.text _) :: rest => nextElem rest
  | (e@(.elem _ _ _)) :: _ => some e

/-- `NextUntil("h1, h2, h3, h4, h5, h6")`: following sibling elements up
to (excluding) the next heading. -/
def nextUntilHeading : List Html → List Html
  | [] => []
  | (.text _) :: rest => nextUntilHeading rest
  | (e@(.elem _ _ _)) :: rest =>
    if isHeading e then [] else e :: nextUntilHeading rest

/-- `doc.Find("title").Text()`: concatenated text of every `title`
element. -/
def htmlTitleText (root : List Html) : String :=
  textContentList ((descList root).filter (tagIs "title"))

/-- The meta-description loop: each `meta[name=description]` element that
carries a `content` attribute overwrites the accumulator. -/
def metaDescriptionFold : List Html → String → String
  | [], acc => acc
  | m :: ms, acc =>
    metaDescriptionFold ms
      (match m.attr "content" with
       | some v => v
       | none => acc)

/-- The fallback branch of description extraction (parser.go lines
266–276): text of the first `<p>` element, else of the first `<div>`,
truncated to 197 characters plus an ellipsis when longer than 200.
Go's `len`/slicing count bytes; the embedding counts characters, which
agrees on ASCII text. -/
def htmlFallbackDescription (root : List Html) : String :=
  let d1 :=
    match ((descList root).filter (tagIs "p")).head? with
    | some p => p.textContent
    | none => ""
  let d2 :=
    if d1 = "" then
      match ((descList root).filter (tagIs "div")).head? with
      | some dv => dv.textContent
      | none => ""
    else d1
  if 200 < goLen d2 then goTakeChars d2 197 ++ "..." else d2

/-- Description extraction of `HTMLParser.Parse` (parser.go lines
257–276): meta description if one sticks, else the `<p>`/`<div>`
fallback — only the fallback is ever truncated. -/
def htmlDescription (root : List Html) : String :=
  let metas := (descList root).filter isDescMeta
  let d := metaDescriptionFold metas ""
  if d = "" then htmlFallbackDescription root else d

/-- `containsEndpointIndicators` (parser.go lines 457–482). -/
def containsEndpointIndicators (text : String) : Bool :=
  let lowerText := goToLower text
  if goContains lowerText "api" || goContains lowerText "endpoint" ||
      goContains lowerText "route" || goContains lowerText "request" then true
  else if ["get", "post", "put", "delete", "patch"].any
      (fun m => goContains lowerText m) then true
  else if goContains text "/" && (goContains text "\x7b" || goContains text ":") then true
  else false

/-- The verb-scanning loop of `extractMethodAndPath`: first of the seven
verbs contained in the upper-cased text wins, `"GET"` if none does. -/
def firstContainedMethod : List String → String → String
  | [], _ => "GET"
  | m :: ms, text =>
    if goContains (goToUpper text) m then m else firstContainedMethod ms text

/-- The path-scanning loop of `extractMethodAndPath`: first
whitespace-delimited word starting with `/`, else `"Unknown"`. -/
def firstSlashWord : List String → String
  | [] => "Unknown"
  | w :: ws => if goHasPrefix w "/" then w else firstSlashWord ws

/-- `extractMethodAndPath` (parser.go lines 485–509). -/
def extractMethodAndPath (text : String) : String × String :=
  (firstContainedMethod ["GET", "POST", "PUT", "DELETE", "PATCH", "OPTIONS", "HEAD"] text,
   firstSlashWord (goFields text))

/-- `getStatusCodeDescription` (parser.go lines 512–533). -/
def getStatusCodeDescription (code : Int) : String :=
  if code = 200 then "OK"
  else if code = 201 then "Created"
  else if code = 204 then "No Content"
  else if code = 400 then "Bad Request"
  else if code = 401 then "Unauthorized"
  else if code = 403 then "Forbidden"
  else if code = 404 then "Not Found"
  else if code = 500 then "Internal Server Error"
  else "Unknown Status Code"

/-- `paramSection.Find("table tr")`: the rows of tables inside the
sibling range — a sibling that is itself a `table` contributes its rows
too, since `Find` matches descendants of each selection node (rows of
tables nested inside tables are repeated here, where goquery would
deduplicate nodes; no claim observes that corner). -/
def findTableRows (sect : List Html) : List Html :=
  (sect.flatMap fun n =>
    (if tagIs "table" n then [n] else []) ++
      (properDescendants n).filter (tagIs "table")).flatMap
    fun t => (properDescendants t).filter (tagIs "tr")

/-- Parameter extraction of the heading pass: every table row after the
first with at least two cells becomes a parameter (cell 0 name, cell 1
description); a `{name}` or `:name` occurrence in the path makes it a
required path parameter, else an optional query parameter of type
`"string"`. -/
def headingParams (path : String) (sect : List Html) : List models.Parameter :=
  (findTableRows sect).enum.foldl
    (fun ps ir =>
      if ir.1 = 0 then ps
      else
        match (properDescendants ir.2).filter (tagIs "td") with
        | c0 :: c1 :: _ =>
          let name := c0.textContent
          let pathParam :=
            goContains path ("\x7b" ++ name ++ "\x7d") || goContains path (":" ++ name)
          ps ++ [{ name := name,
                   loc := if pathParam then "path" else "query",
                   required := pathParam,
                   type := "string",
                   description := c1.textContent }]
        | _ => ps)
    []

/-- The seven status-code literals the heading pass greps for. -/
def statusMatches : List String := ["200", "201", "400", "401", "403", "404", "500"]

/-- Response extraction of the heading pass: each code/preformatted
element in the sibling range contributes every status literal occurring
in its text, deduplicated by code, with the fixed description table. -/
def headingResponses (sect : List Html) : List models.Response :=
  (selFind sect isCodeSel).foldl
    (fun rs codeEl =>
      statusMatches.foldl
        (fun rs status =>
          if goContains codeEl.textContent status then
            let statusCode := sscanfD status
            if rs.any fun r => r.statusCode = statusCode then rs
            else rs ++ [{ statusCode := statusCode,
                          description := getStatusCodeDescription statusCode,
                          schema := "" }]
          else rs)
        rs)
    []

/-- Pass A (parser.go lines 293–392): every non-empty heading that shows
endpoint indicators becomes an endpoint, appended without any
deduplication. -/
def pass1 (root : List Html) : List models.Endpoint :=
  (elemsWSList root).foldl
    (fun eps hs =>
      if isHeading hs.1 then
        let text := goTrimSpace hs.1.textContent
        if text = "" then eps
        else if containsEndpointIndicators text then
          let mp := extractMethodAndPath text
          let sect := nextUntilHeading hs.2
          eps ++ [{ path := mp.2, method := mp.1, summary := text,
                    description :=
                      match nextElem hs.2 with
                      | some e => e.textContent
                      | none => "",
                    parameters := headingParams mp.2 sect,
                    responses := headingResponses sect }]
        else eps
      else eps)
    []

/-- Path cleanup of the code-block pass: strip an `http://`/`https://`
prefix, then cut everything before the first `/` when that `/` is not at
position 0. -/
def cleanCodePath (p : String) : String :=
  let p1 := goTrimPrefix p "http://"
  let p2 := goTrimPrefix p1 "https://"
  let idx := goIndexChar p2 '/'
  if 0 < idx then goDropChars p2 idx.toNat else p2

/-- One line of the code-block pass for one verb: lines containing the
verb with at least two fields yield an endpoint from field 1, appended
only if no endpoint with the same `(method, path)` exists yet. -/
def method2Line (m : String) (eps : List models.Endpoint) (line : String) :
    List models.Endpoint :=
  if goContains line m then
    match goFields line with
    | _ :: p1 :: _ =>
      let path := cleanCodePath p1
      if eps.any fun e => e.path = path && e.method = m then eps
      else
        eps ++ [{ path := path, method := m, summary := line, description := "",
                  parameters := [],
                  responses := [{ statusCode := 200, description := "OK", schema := "" }] }]
    | _ => eps
  else eps

/-- One verb of the code-block pass over one element's text. -/
def method2Method (text : String) (eps : List models.Endpoint) (m : String) :
    List models.Endpoint :=
  if goContains text (m ++ " ") || goContains text (m ++ "\t") then
    (goSplitLines text).foldl (method2Line m) eps
  else eps

/-- One code/preformatted element of the code-block pass. -/
def method2Elem (eps : List models.Endpoint) (el : Html) : List models.Endpoint :=
  ["GET", "POST", "PUT", "DELETE", "PATCH"].foldl (method2Method el.textContent) eps

/-- Pass B (parser.go lines 395–449), run after Pass A on the endpoint
list accumulated so far. -/
def pass2 (root : List Html) (eps : List models.Endpoint) : List models.Endpoint :=
  ((descList root).filter isCodeSel).foldl method2Elem eps

/-- `HTMLParser.Parse` over the parsed markup tree; `t` is the
`time.Now()` instant.  The `Except` return mirrors the Go signature, but
no input reaches the error branch (see the section comment). -/
def HTMLParserParse (root : List Html) (t : Int) : Except String models.APIDoc :=
  .ok { id := "html-" ++ intToStr t
        url := ""
        title := (let ti := htmlTitleText root; if ti = "" then "Unknown API" else ti)
        description := htmlDescription root
        version := "Unknown"
        endpoints := pass2 root (pass1 root)
        createdAt := t
        updatedAt := t }

/-- The HTML test document of `parser_test.go` as a tree. -/
def htmlTestDoc : List Html := [
  .elem "html" [] [
    .elem "head" [] [
      .elem "title" [] [.text "Test API Documentation"],
      .elem "meta" [("name", "description"), ("content", "API documentation for testing")] []],
    .elem "body" [] [
      .elem "h1" [] [.text "Test API"],
      .elem "p" [] [.text "This is a test API for demonstration purposes."],
      .elem "h2" [] [.text "API Endpoints"],
      .elem "h3" [] [.text "GET /users"],
      .elem "p" [] [.text "Returns a list of users."],
      .elem "h4" [] [.text "Parameters"],
      .elem "table" [] [
        .elem "tr" [] [
          .elem "th" [] [.text "Name"], .elem "th" [] [.text "Description"]],
        .elem "tr" [] [
          .elem "td" [] [.text "limit"],
          .elem "td" [] [.text "Maximum number of users to return"]]],
      .elem "h4" [] [.text "Responses"],
      .elem "ul" [] [
        .elem "li" [] [.text "200: Successful operation"],
        .elem "li" [] [.text "400: Bad request"]],
      .elem "h3" [] [.text "POST /users"],
      .elem "p" [] [.text "Creates a new user."],
      .elem "h4" [] [.text "Parameters"],
      .elem "table" [] [
        .elem "tr" [] [
          .elem "th" [] [.text "Name"], .elem "th" [] [.text "Description"]],
        .elem "tr" [] [
          .elem "td" [] [.text "name"], .elem "td" [] [.text "User name"]]],
      .elem "h4" [] [.text "Responses"],
      .elem "ul" [] [
        .elem "li" [] [.text "201: User created"],
        .elem "li" [] [.text "400: Bad request"]]]]]

example :
    ((HTMLParserParse htmlTestDoc 3).toOption.map fun d =>
      (d.id, d.title, d.description, d.version)) =
      some ("html-3", "Test API Documentation", "API documentation for testing",
        "Unknown") := by decide

example :
    ((HTMLParserParse htmlTestDoc 3).toOption.map fun d =>
      d.endpoints.map fun e => (e.method, e.path)) =
      some [("GET", "Unknown"), ("GET", "Unknown"), ("GET", "/users"),
            ("POST", "/users")] := by decide

/-- C5: the HTML strategy never fails — for every parsed markup tree
(and every byte input has one, the HTML5 parser being total) and every
instant, `HTMLParser.Parse` returns a canonical document, never an
error. -/
theorem htmlParse_never_fails (root : List Html) (t : Int) :
    (HTMLParserParse root t).isOk = true := rfl

/-- The verb loop picks the first of the seven verbs occurring in the
upper-cased text, `"GET"` when none occurs. -/
theorem firstContainedMethod_eq_find (l : List String) (text : String) :
    firstContainedMethod l text =
      (l.find? fun m => goContains (goToUpper text) m).getD "GET" := by
  induction l with
  | nil => rfl
  | cons m ms ih =>
    unfold firstContainedMethod
    cases h : goContains (goToUpper text) m with
    | true => simp [List.find?_cons, h]
    | false => simp [List.find?_cons, h, ih]

/-- C8: a classified heading's method is the first of GET, POST, PUT,
DELETE, PATCH, OPTIONS, HEAD occurring case-insensitively anywhere in
the heading text, with GET the default — so the heading
`"DELETE /widgets"` is classified, but yields method GET, because
`"get"` occurs inside `"widgets"`. -/
theorem extractMethod_first_verb :
    (∀ text : String,
      (extractMethodAndPath text).1 =
        ((["GET", "POST", "PUT", "DELETE", "PATCH", "OPTIONS", "HEAD"].find?
          fun m => goContains (goToUpper text) m).getD "GET"))
    ∧ extractMethodAndPath "DELETE /widgets" = ("GET", "/widgets")
    ∧ containsEndpointIndicators "DELETE /widgets" = true :=
  ⟨fun text => firstContainedMethod_eq_find _ text, by decide, by decide⟩

/-- Specification-style description rule: the `content` attribute of the
LAST `meta[name=description]` element carrying that attribute, taken
untruncated whenever it is non-empty; otherwise the first-`<p>`-else-
first-`<div>` fallback, which alone is subject to truncation. -/
def htmlDescriptionSpec (root : List Html) : String :=
  let c := (((descList root).filter isDescMeta).filterMap fun m =>
    m.attr "content").getLastD ""
  if c = "" then htmlFallbackDescription root else c

/-- The overwrite loop over meta elements keeps the last `content`
attribute seen. -/
theorem metaDescriptionFold_eq_getLastD (ms : List Html) (acc : String) :
    metaDescriptionFold ms acc =
      (ms.filterMap fun m => m.attr "content").getLastD acc := by
  induction ms generalizing acc with
  | nil => rfl
  | cons m rest ih =>
    unfold metaDescriptionFold
    cases h : m.attr "content" with
    | some v =>
      show metaDescriptionFold rest v = _
      have hfm : List.filterMap (fun x : Html => x.attr "content") (m :: rest) =
          v :: List.filterMap (fun x : Html => x.attr "content") rest := by
        simp [h]
      rw [ih v, hfm, List.getLastD_cons]
    | none =>
      show metaDescriptionFold rest acc = _
      have hfm : List.filterMap (fun x : Html => x.attr "content") (m :: rest) =
          List.filterMap (fun x : Html => x.attr "content") rest := by
        simp [h]
      rw [ih acc, hfm]

/-- C7 amended: the extracted description follows
`htmlDescriptionSpec` — last meta description wins and is never
truncated; the `<p>`/`<div>` fallback uses the first `<p>` element (even
when its text is empty and a later `<p>` is not, the code moves on to
the first `<div>`), and only this fallback is truncated to 197
characters plus `"..."` when longer than 200. -/
theorem html_description_amended (root : List Html) (t : Int) :
    (HTMLParserParse root t).toOption.map (fun d => d.description) =
      some (htmlDescriptionSpec root) := by
  show some (htmlDescription root) = some (htmlDescriptionSpec root)
  unfold htmlDescription htmlDescriptionSpec
  dsimp only
  rw [metaDescriptionFold_eq_getLastD]

/-- A 201-character ASCII description. -/
def longA : String := ⟨List.replicate 201 'a'⟩

/-- A document whose meta description exceeds 200 characters. -/
def metaLongDoc : List Html :=
  [.elem "meta" [("name", "description"), ("content", longA)] []]

/-- A document whose first `<p>` is empty while a later `<p>` is not. -/
def emptyPDoc : List Html :=
  [.elem "p" [] [], .elem "p" [] [.text "real"], .elem "div" [] [.text "divtext"]]

/-- C7 counterexample: a meta description of 201 characters is returned
whole — the resulting description exceeds 200 characters and is not
truncated; and with an empty first `<p>`, the extractor skips the later
non-empty `<p>` and takes the first `<div>` instead of the claimed
"first non-empty `<p>`". -/
theorem description_truncation_counterexample :
    ((HTMLParserParse metaLongDoc 0).toOption.map fun d => d.description) = some longA
    ∧ 200 < goLen longA
    ∧ ((HTMLParserParse emptyPDoc 0).toOption.map fun d => d.description) =
        some "divtext" :=
  ⟨by decide, by decide, by decide⟩

/-- The `(method, path)` keys of an endpoint list. -/
def endpointKeys (eps : List models.Endpoint) : List (String × String) :=
  eps.map fun e => (e.method, e.path)

/-- C1 counterexample: on the repository's own HTML test document the
heading pass emits two endpoints with the identical key
`("GET", "Unknown")` (from the headings `"Test API"` and
`"API Endpoints"`, both keyword-classified) — the returned endpoint list
is not deduplicated by `(method, path)`. -/
theorem htmlEndpoints_dup_counterexample :
    ((HTMLParserParse htmlTestDoc 0).toOption.map fun d => endpointKeys d.endpoints) =
      some [("GET", "Unknown"), ("GET", "Unknown"), ("GET", "/users"), ("POST", "/users")]
    ∧ ¬ ([("GET", "Unknown"), ("GET", "Unknown"), ("GET", "/users"), ("POST", "/users")] :
        List (String × String)).Nodup :=
  ⟨by decide, by decide⟩

/-- A fold whose step preserves a predicate preserves it overall. -/
theorem foldl_preserve {α β : Type} (P : α → Prop) (f : α → β → α)
    (hf : ∀ a b, P a → P (f a b)) :
    ∀ (l : List β) (a : α), P a → P (l.foldl f a) := by
  intro l
  induction l with
  | nil => intro a ha; exact ha
  | cons b bs ih => intro a ha; exact ih (f a b) (hf a b ha)

/-- One line-step of the code-block pass preserves key uniqueness: it
appends only endpoints whose `(method, path)` key is absent. -/
theorem method2Line_nodup (m line : String) (eps : List models.Endpoint)
    (h : (endpointKeys eps).Nodup) :
    (endpointKeys (method2Line m eps line)).Nodup := by
  unfold method2Line
  by_cases hc : goContains line m = true
  · rw [if_pos hc]
    cases hf : goFields line with
    | nil => exact h
    | cons w ws =>
      cases ws with
      | nil => exact h
      | cons p1 rest =>
        dsimp only
        by_cases hany : (eps.any fun e => e.path = cleanCodePath p1 && e.method = m) = true
        · rw [if_pos hany]; exact h
        · rw [if_neg hany]
          unfold endpointKeys at h ⊢
          rw [List.map_append]
          rw [List.nodup_append]
          refine ⟨h, List.nodup_singleton _, ?_⟩
          intro k hk hk2
          simp only [List.map_cons, List.map_nil, List.mem_singleton] at hk2
          subst hk2
          rcases List.mem_map.mp hk with ⟨e, he, hek⟩
          have h1 : e.method = m := congrArg Prod.fst hek
          have h2 : e.path = cleanCodePath p1 := congrArg Prod.snd hek
          have : (eps.any fun e => e.path = cleanCodePath p1 && e.method = m) = true :=
            List.any_eq_true.mpr ⟨e, he, by simp [h1, h2]⟩
          exact hany this
  · rw [if_neg hc]; exact h

/-- The code-block pass as a whole preserves key uniqueness. -/
theorem pass2_nodup (root : List Html) (eps : List models.Endpoint)
    (h : (endpointKeys eps).Nodup) : (endpointKeys (pass2 root eps)).Nodup := by
  unfold pass2
  refine foldl_preserve (fun eps => (endpointKeys eps).Nodup) method2Elem ?_ _ eps h
  intro a el ha
  unfold method2Elem
  refine foldl_preserve (fun eps => (endpointKeys eps).Nodup)
    (method2Method el.textContent) ?_ _ a ha
  intro a m ha
  unfold method2Method
  by_cases hc : (goContains el.textContent (m ++ " ") ||
      goContains el.textContent (m ++ "\t")) = true
  · rw [if_pos hc]
    exact foldl_preserve (fun eps => (endpointKeys eps).Nodup) (method2Line m)
      (fun a line ha => method2Line_nodup m line a ha) _ a ha
  · rw [if_neg hc]; exact ha

/-- C1 amended: only the code-block pass deduplicates — it never creates
a duplicate `(method, path)` key (first occurrence wins, across both
passes), so whenever the heading pass happens to produce pairwise
distinct keys the final endpoint list has pairwise distinct keys; the
heading pass itself appends without any deduplication (see the
counterexample). -/
theorem htmlEndpoints_pass2_nodup (root : List Html) (t : Int)
    (h1 : (endpointKeys (pass1 root)).Nodup) :
    (endpointKeys (pass2 root (pass1 root))).Nodup ∧
    (HTMLParserParse root t).toOption.map (fun d => endpointKeys d.endpoints) =
      some (endpointKeys (pass2 root (pass1 root))) :=
  ⟨pass2_nodup root (pass1 root) h1, rfl⟩

/-- A document whose heading and code block name the same endpoint. -/
def dedupWitnessDoc : List Html :=
  [.elem "h2" [] [.text "POST /users endpoint"],
   .elem "pre" [] [.text "POST /users"]]

/-- C1 witness: one heading plus one code block for the same endpoint —
the merged list keeps a single `("POST", "/users")` key. -/
theorem htmlEndpoints_pass2_nodup_witness :
    (endpointKeys (pass2 dedupWitnessDoc (pass1 dedupWitnessDoc))).Nodup :=
  (htmlEndpoints_pass2_nodup dedupWitnessDoc 0 (by decide)).1
